import Mathlib

/-!
Verification of the Teelo v4.0 rating recomputation engine and the
matches-page filter controllers.

Part 1 embeds the two vanilla-JS matches-page filter controllers
(the newer one with a gender filter, and the older one without) as pure
functions on an explicit filter-state record.  A query string is modelled
as the ordered list of key/value pairs the controller feeds to
URLSearchParams, rendered in the same order; percent-encoding is the
same function on both sides and therefore irrelevant to the equalities
proved here.

Part 2 embeds the rating (ELO) recomputation engine.  The engine's Python
sources (src/teelo/elo/live.py, scripts/update_elo_incremental.py,
scripts/optimise_elo.py and the tasks modules) are not part of the staged
tree — only their design documents are — so the engine is modelled from
the specification and those documents.  The per-match numeric formulas are
stated over the real numbers, as the spec writes them.  Orchestration
(selection, rebuild, out-of-order flagging, checkpoints, run lock) is
expressed generically over the rating value type R and over the engine's
pure update function, exactly as the spec factors it: the Rating Engine is
a pure function consumed by the Processing Modes.  Concrete witnesses
instantiate R with the integers so that runs evaluate by `decide`.
-/

/-! ## Part 1: matches-page filter controller (definitions) -/

/-- The filter state object of the matches-page controller, as declared at
the top of the controller (both versions; the older controller simply has
no `gender` field and never reads it). Number-valued fields that JS holds
as `null | number` are `Option Int`; `page`/`per_page` are naturals. -/
structure MatchesFilterState where
  gender : String
  tour : List String
  surface : List String
  level : List String
  round : List String
  status : List String
  player_id : Option Int
  player_a_id : Option Int
  player_b_id : Option Int
  tournament : String
  date_from : String
  date_to : String
  date_preset : String
  page : Nat
  per_page : Nat
deriving DecidableEq

/-- `getAllowedToursForGender` from the newer controller. -/
def getAllowedToursForGender (gender : String) : List String :=
  if gender = "men" then ["ATP", "CHALLENGER", "ITF"]
  else if gender = "women" then ["WTA", "WTA_125", "ITF"]
  else []

/-- `getEffectiveTourFilters` from the newer controller: with no gender a
copy of `state.tour`; otherwise the allowed tours when `state.tour` is
empty, and the intersection (filter by membership) when it is not. -/
def getEffectiveTourFilters (state : MatchesFilterState) : List String :=
  if state.gender = "" then
    state.tour
  else
    let allowedTours := getAllowedToursForGender state.gender
    if state.tour.length = 0 then
      allowedTours
    else
      state.tour.filter (fun tour => allowedTours.contains tour)

/-- The ordered key/value pairs `buildQueryString` of the NEWER controller
hands to URLSearchParams, in the exact order of its `params.set` calls. -/
def buildQueryParamsNew (state : MatchesFilterState) : List (String × String) :=
  (let effectiveTours := getEffectiveTourFilters state
   if effectiveTours.length > 0 then
     [("tour", String.intercalate "," effectiveTours)] else [])
  ++ (if state.gender = "" then [] else [("gender", state.gender)])
  ++ (if state.surface.length > 0 then
       [("surface", String.intercalate "," state.surface)] else [])
  ++ (if state.level.length > 0 then
       [("level", String.intercalate "," state.level)] else [])
  ++ (if state.round.length > 0 then
       [("round", String.intercalate "," state.round)] else [])
  ++ (if state.status.length > 0 then
       [("status", String.intercalate "," state.status)] else [])
  ++ (match state.player_id with
      | some n => if n = 0 then [] else [("player_id", toString n)]
      | none => [])
  ++ (match state.player_a_id with
      | some n => if n = 0 then [] else [("player_a_id", toString n)]
      | none => [])
  ++ (match state.player_b_id with
      | some n => if n = 0 then [] else [("player_b_id", toString n)]
      | none => [])
  ++ (if state.tournament = "" then [] else [("tournament", state.tournament)])
  ++ (if state.date_preset ≠ "" ∧ state.date_preset ≠ "custom" then
       [("date_preset", state.date_preset)] else [])
  ++ (if state.date_from = "" then [] else [("date_from", state.date_from)])
  ++ (if state.date_to = "" then [] else [("date_to", state.date_to)])
  ++ [("page", toString state.page), ("per_page", toString state.per_page)]

/-- The ordered key/value pairs `buildQueryString` of the OLDER controller
hands to URLSearchParams: identical except that the `tour` value comes
straight from `state.tour` and no gender parameter exists. -/
def buildQueryParamsOld (state : MatchesFilterState) : List (String × String) :=
  (if state.tour.length > 0 then
     [("tour", String.intercalate "," state.tour)] else [])
  ++ (if state.surface.length > 0 then
       [("surface", String.intercalate "," state.surface)] else [])
  ++ (if state.level.length > 0 then
       [("level", String.intercalate "," state.level)] else [])
  ++ (if state.round.length > 0 then
       [("round", String.intercalate "," state.round)] else [])
  ++ (if state.status.length > 0 then
       [("status", String.intercalate "," state.status)] else [])
  ++ (match state.player_id with
      | some n => if n = 0 then [] else [("player_id", toString n)]
      | none => [])
  ++ (match state.player_a_id with
      | some n => if n = 0 then [] else [("player_a_id", toString n)]
      | none => [])
  ++ (match state.player_b_id with
      | some n => if n = 0 then [] else [("player_b_id", toString n)]
      | none => [])
  ++ (if state.tournament = "" then [] else [("tournament", state.tournament)])
  ++ (if state.date_preset ≠ "" ∧ state.date_preset ≠ "custom" then
       [("date_preset", state.date_preset)] else [])
  ++ (if state.date_from = "" then [] else [("date_from", state.date_from)])
  ++ (if state.date_to = "" then [] else [("date_to", state.date_to)])
  ++ [("page", toString state.page), ("per_page", toString state.per_page)]

/-- URLSearchParams.toString on distinct keys: render the pairs in
insertion order. -/
def renderQuery (params : List (String × String)) : String :=
  String.intercalate "&" (params.map (fun kv => kv.1 ++ "=" ++ kv.2))

/-- `buildQueryString` of the newer controller. -/
def buildQueryStringNew (state : MatchesFilterState) : String :=
  renderQuery (buildQueryParamsNew state)

/-- `buildQueryString` of the older controller. -/
def buildQueryStringOld (state : MatchesFilterState) : String :=
  renderQuery (buildQueryParamsOld state)

/-- A concrete filter state with empty gender, used to exercise the
refinement of the older controller by the newer one. -/
def exampleState9 : MatchesFilterState :=
  { gender := "", tour := ["ATP", "WTA"], surface := ["Hard"], level := [],
    round := [], status := ["completed"], player_id := some 7,
    player_a_id := none, player_b_id := none, tournament := "",
    date_from := "", date_to := "", date_preset := "7d",
    page := 2, per_page := 50 }

/-- A concrete filter state whose tour list equals the full allowed list
for men. -/
def exampleState10 : MatchesFilterState :=
  { gender := "men", tour := ["ATP", "CHALLENGER", "ITF"], surface := [],
    level := [], round := [], status := [], player_id := none,
    player_a_id := none, player_b_id := none, tournament := "",
    date_from := "", date_to := "", date_preset := "",
    page := 1, per_page := 50 }

/-- A concrete filter state for women with a mixed tour list. -/
def exampleState10b : MatchesFilterState :=
  { gender := "women", tour := ["ATP", "WTA", "ITF"], surface := [],
    level := [], round := [], status := [], player_id := none,
    player_a_id := none, player_b_id := none, tournament := "",
    date_from := "", date_to := "", date_preset := "",
    page := 1, per_page := 50 }

/-! ## Part 2: rating recomputation engine (definitions) -/

/-- Modelled from the spec: the expected-score formula of the Rating
Engine (spec 4.1), over the reals: E_A = 1 / (1 + 10 ^ ((ratingB -
ratingA) / S)).  The Python implementation (src/teelo/elo/live.py) is not
in the staged tree. -/
noncomputable def expectedScore (ratingA ratingB s : ℝ) : ℝ :=
  1 / (1 + (10 : ℝ) ^ ((ratingB - ratingA) / s))

/-- Modelled from the spec: the update formula of the Rating Engine (spec
4.1): new_A = ratingA + K * (actual_A - E_A), symmetrically for B, with
actual_A in 0/1 from the winner, actual_B = 1 - actual_A and
E_B = 1 - E_A. -/
noncomputable def ratingUpdate (k s ratingA ratingB : ℝ) (aWins : Bool) : ℝ × ℝ :=
  (ratingA + k * ((if aWins then (1 : ℝ) else 0) - expectedScore ratingA ratingB s),
   ratingB + k * ((1 - (if aWins then (1 : ℝ) else 0)) -
     (1 - expectedScore ratingA ratingB s)))

/-- Modelled from the spec: the input attributes of a match exposed by the
ordered match stream (spec 6): identifier, the two participants, status,
winner, temporal_order and the rating context. -/
structure MatchInput where
  mid : Nat
  playerA : Nat
  playerB : Nat
  status : String
  winnerIsA : Bool
  temporalOrder : Nat
  context : String
deriving DecidableEq

/-- Modelled from the spec: a match row together with the engine-owned
per-match fields (spec 3 / the inline ELO columns on `matches`), over
rating values of type R. -/
structure MatchRow (R : Type) where
  mid : Nat
  playerA : Nat
  playerB : Nat
  status : String
  winnerIsA : Bool
  temporalOrder : Nat
  context : String
  preA : Option R
  preB : Option R
  postA : Option R
  postB : Option R
  paramsVersion : Option String
  processed : Bool
  needsRecompute : Bool
deriving DecidableEq

/-- The ingestion-owned part of a match row. -/
def matchInput {R : Type} (m : MatchRow R) : MatchInput :=
  { mid := m.mid, playerA := m.playerA, playerB := m.playerB,
    status := m.status, winnerIsA := m.winnerIsA,
    temporalOrder := m.temporalOrder, context := m.context }

/-- A match row with every engine-owned field cleared. -/
def rowOfInput {R : Type} (i : MatchInput) : MatchRow R :=
  { mid := i.mid, playerA := i.playerA, playerB := i.playerB,
    status := i.status, winnerIsA := i.winnerIsA,
    temporalOrder := i.temporalOrder, context := i.context,
    preA := none, preB := none, postA := none, postB := none,
    paramsVersion := none, processed := false, needsRecompute := false }

/-- Clearing the engine-owned fields of a row (the rebuild's reset phase,
spec 4.3 step 2). -/
def clearRow {R : Type} (m : MatchRow R) : MatchRow R :=
  rowOfInput (matchInput m)

/-- The total-order key of a match: (temporal_order, identifier). -/
def keyOf {R : Type} (m : MatchRow R) : Nat × Nat :=
  (m.temporalOrder, m.mid)

/-- Strict lexicographic order on total-order keys. -/
def keyLt (a b : Nat × Nat) : Prop :=
  a.1 < b.1 ∨ (a.1 = b.1 ∧ a.2 < b.2)

/-- Lexicographic order on total-order keys. -/
def keyLe (a b : Nat × Nat) : Prop :=
  a.1 < b.1 ∨ (a.1 = b.1 ∧ a.2 ≤ b.2)

instance : DecidableRel keyLt := fun a b =>
  inferInstanceAs (Decidable (a.1 < b.1 ∨ (a.1 = b.1 ∧ a.2 < b.2)))

instance : DecidableRel keyLe := fun a b =>
  inferInstanceAs (Decidable (a.1 < b.1 ∨ (a.1 = b.1 ∧ a.2 ≤ b.2)))

/-- Match comparison by total-order key. -/
def matchLe {R : Type} (a b : MatchRow R) : Prop :=
  keyLe (keyOf a) (keyOf b)

instance {R : Type} : DecidableRel (@matchLe R) := fun a b =>
  inferInstanceAs (Decidable (keyLe (keyOf a) (keyOf b)))

/-- Modelled from the spec: PlayerRatingState (spec 3 /
`player_elo_states`): current rating and the total-order key of the last
match processed for the player. -/
structure PlayerState (R : Type) where
  rating : R
  lastKey : Nat × Nat
deriving DecidableEq

/-- Lookup in the player-state store (keyed by player identifier). -/
def getPlayerState {R : Type} :
    List (Nat × PlayerState R) → Nat → Option (PlayerState R)
  | [], _ => none
  | e :: rest, p => if e.1 = p then some e.2 else getPlayerState rest p

/-- Upsert in the player-state store. -/
def setPlayerState {R : Type} :
    List (Nat × PlayerState R) → Nat → PlayerState R → List (Nat × PlayerState R)
  | [], p, st => [(p, st)]
  | e :: rest, p, st =>
    if e.1 = p then (p, st) :: rest else e :: setPlayerState rest p st

/-- Modelled from the spec: a ParameterSet (spec 3): name, version, the
context-to-(K, S) mapping and the active flag. -/
structure ParameterSet (R : Type) where
  name : String
  version : String
  constants : List (String × R × R)
  isActive : Bool
deriving DecidableEq

/-- The (K, S) pair selected by a match's rating context; none for an
unknown context (spec 4.1: ConfigurationError). -/
def lookupConstants {R : Type} (params : ParameterSet R) (context : String) :
    Option (R × R) :=
  (params.constants.find? (fun e => e.1 == context)).map (fun e => e.2)

/-- Modelled from the spec: the Rating Engine as its orchestration sees
it — a fixed initial rating and a pure update function taking K, S, the
two current ratings and the winner, returning both new ratings (spec 4.1:
"Side effects: none — this is a pure function"). -/
structure RatingEngine (R : Type) where
  initialRating : R
  update : R → R → R → R → Bool → R × R

/-- Modelled from the spec: the mutable rating store — match rows with
their engine-owned fields plus the PlayerRatingState rows. -/
structure EloDb (R : Type) where
  rows : List (MatchRow R)
  players : List (Nat × PlayerState R)
deriving DecidableEq

/-- The fixed terminal status set (spec 6). -/
def terminalStatuses : List String :=
  ["completed", "retired", "walkover", "default"]

/-- Whether a match is terminal. -/
def isTerminal {R : Type} (m : MatchRow R) : Bool :=
  terminalStatuses.contains m.status

/-- Modelled from the spec: the derived incremental selection predicate
(spec 4.2 / hourly spec Option A): terminal AND (a post rating unset OR
needs_recompute). -/
def eloEligible {R : Type} (m : MatchRow R) : Bool :=
  isTerminal m && (m.postA.isNone || m.postB.isNone || m.needsRecompute)

/-- Matches in strict total order: temporal_order ascending, identifier
ascending as tie-break. -/
def sortMatches {R : Type} (l : List (MatchRow R)) : List (MatchRow R) :=
  l.insertionSort matchLe

/-- Modelled from the spec: incremental selection — the eligible matches
in total order, recomputed from current match state on every run. -/
def eligibleMatches {R : Type} (db : EloDb R) : List (MatchRow R) :=
  sortMatches (db.rows.filter eloEligible)

/-- A per-match pre/post rating snapshot as produced while processing, in
application order. -/
structure Snap (R : Type) where
  mid : Nat
  key : Nat × Nat
  playerA : Nat
  playerB : Nat
  preA : R
  preB : R
  postA : R
  postB : R
  flagged : Bool
deriving DecidableEq

/-- Whether the snapshot's match involves player p. -/
def Snap.involves {R : Type} (s : Snap R) (p : Nat) : Bool :=
  s.playerA == p || s.playerB == p

/-- The pre-rating the snapshot records for player p. -/
def Snap.preOf {R : Type} (s : Snap R) (p : Nat) : R :=
  if s.playerA = p then s.preA else s.preB

/-- The post-rating the snapshot records for player p. -/
def Snap.postOf {R : Type} (s : Snap R) (p : Nat) : R :=
  if s.playerA = p then s.postA else s.postB

/-- In-flight processing state: evolving player states, snapshots in
application order, and the out-of-order marks (player, anomaly key)
recorded so far. -/
structure ProcState (R : Type) where
  players : List (Nat × PlayerState R)
  snaps : List (Snap R)
  marks : List (Nat × (Nat × Nat))
deriving DecidableEq

/-- Modelled from the spec: the out-of-order test (spec 4.4) — the match's
total-order key is less than the last-processed key already recorded on
the participant's PlayerRatingState. -/
def anomalousFor {R : Type} (players : List (Nat × PlayerState R))
    (m : MatchRow R) (p : Nat) : Bool :=
  match getPlayerState players p with
  | some pst => decide (keyLt (keyOf m) pst.lastKey)
  | none => false

/-- Modelled from the spec: apply one match (spec 4.3 step 4 / 4.4).  The
snapshot is always written (no match is silently dropped).  On an
out-of-order anomaly the player states are NOT advanced (the engine only
threads forward and must not corrupt committed downstream ratings) and a
mark (player, key) is recorded for every anomalous participant, from
which needs_recompute flags are derived; otherwise both players' states
advance to the new ratings and this key. -/
def applyOne {R : Type} (eng : RatingEngine R) (ks : R × R)
    (st : ProcState R) (m : MatchRow R) : ProcState R :=
  let rA := ((getPlayerState st.players m.playerA).map
    (fun e => e.rating)).getD eng.initialRating
  let rB := ((getPlayerState st.players m.playerB).map
    (fun e => e.rating)).getD eng.initialRating
  let anomA := anomalousFor st.players m m.playerA
  let anomB := anomalousFor st.players m m.playerB
  let updated := eng.update ks.1 ks.2 rA rB m.winnerIsA
  let snap : Snap R :=
    { mid := m.mid, key := keyOf m, playerA := m.playerA,
      playerB := m.playerB, preA := rA, preB := rB,
      postA := updated.1, postB := updated.2, flagged := anomA || anomB }
  { players :=
      if anomA || anomB then st.players
      else
        setPlayerState
          (setPlayerState st.players m.playerA
            { rating := updated.1, lastKey := keyOf m })
          m.playerB { rating := updated.2, lastKey := keyOf m },
    snaps := st.snaps ++ [snap],
    marks := st.marks ++ (if anomA then [(m.playerA, keyOf m)] else [])
      ++ (if anomB then [(m.playerB, keyOf m)] else []) }

/-- Modelled from the spec: the error taxonomy entries the model needs
(spec 7). -/
inductive EloError where
  | configurationError (context : String)
  | lockUnavailableError
deriving DecidableEq

/-- Process a list of matches in the given order, failing on an unknown
rating context (spec 7: ConfigurationError aborts the run). -/
def processMatches {R : Type} (eng : RatingEngine R) (params : ParameterSet R) :
    List (MatchRow R) → ProcState R → Except EloError (ProcState R)
  | [], st => .ok st
  | m :: ms, st =>
    match lookupConstants params m.context with
    | none => .error (.configurationError m.context)
    | some ks => processMatches eng params ms (applyOne eng ks st m)

/-- The snapshot recorded for a match identifier, if any. -/
def findSnap {R : Type} (snaps : List (Snap R)) (i : Nat) : Option (Snap R) :=
  snaps.find? (fun s => s.mid == i)

/-- Whether an out-of-order mark makes this row need recomputation: some
anomalous participant plays in the row and the row's key is at or after
the anomaly key (spec 4.4). -/
def markApplies {R : Type} (marks : List (Nat × (Nat × Nat)))
    (m : MatchRow R) : Bool :=
  marks.any (fun e =>
    (m.playerA == e.1 || m.playerB == e.1) && decide (keyLe e.2 (keyOf m)))

/-- Write one match's snapshot onto its row: pre/post ratings, the params
version used, processed_at; needs_recompute is never cleared by a run,
only set. -/
def applySnapToRow {R : Type} (version : String) (s : Snap R)
    (m : MatchRow R) : MatchRow R :=
  { m with
    preA := some s.preA, preB := some s.preB,
    postA := some s.postA, postB := some s.postB,
    paramsVersion := some version, processed := true,
    needsRecompute := m.needsRecompute || s.flagged }

/-- Write a row's own snapshot onto it, if it was processed in this run. -/
def snapWrite {R : Type} (version : String) (snaps : List (Snap R))
    (m : MatchRow R) : MatchRow R :=
  match findSnap snaps m.mid with
  | some s => applySnapToRow version s m
  | none => m

/-- Set a row's needs_recompute flag if an out-of-order mark covers it. -/
def markWrite {R : Type} (marks : List (Nat × (Nat × Nat)))
    (m : MatchRow R) : MatchRow R :=
  if markApplies marks m then { m with needsRecompute := true } else m

/-- Write a run's results back onto one row: the row's own snapshot fields
if it was processed, then the derived out-of-order flag. -/
def writeRow {R : Type} (version : String) (st : ProcState R)
    (m : MatchRow R) : MatchRow R :=
  markWrite st.marks (snapWrite version st.snaps m)

/-- Modelled from the spec: one incremental run (spec 4.2 / hourly spec):
select eligible terminal matches in strict total order, thread them
through the engine, write snapshots and flags back and persist the new
player states.  Also returns the snapshot trace. -/
def runIncrementalFull {R : Type} (eng : RatingEngine R)
    (params : ParameterSet R) (db : EloDb R) :
    Except EloError (EloDb R × List (Snap R)) :=
  (processMatches eng params (eligibleMatches db)
      { players := db.players, snaps := [], marks := [] }).map
    (fun st =>
      ({ rows := db.rows.map (writeRow params.version st),
         players := st.players }, st.snaps))

/-- One incremental run, returning the updated store. -/
def runIncremental {R : Type} (eng : RatingEngine R) (params : ParameterSet R)
    (db : EloDb R) : Except EloError (EloDb R) :=
  (runIncrementalFull eng params db).map (fun r => r.1)

/-- Modelled from the spec: the rebuild's reset phase (spec 4.3 step 2):
delete all PlayerRatingState rows, clear all engine-owned fields. -/
def resetDb {R : Type} (db : EloDb R) : EloDb R :=
  { rows := db.rows.map clearRow, players := [] }

/-- Modelled from the spec: a full rebuild (spec 4.3): reset, then replay
every terminal match in strict total order from scratch.  Also returns
the snapshot trace. -/
def runRebuildFull {R : Type} (eng : RatingEngine R) (params : ParameterSet R)
    (db : EloDb R) : Except EloError (EloDb R × List (Snap R)) :=
  let db0 := resetDb db
  (processMatches eng params (sortMatches (db0.rows.filter isTerminal))
      { players := [], snaps := [], marks := [] }).map
    (fun st =>
      ({ rows := db0.rows.map (writeRow params.version st),
         players := st.players }, st.snaps))

/-- A full rebuild, returning the rebuilt store. -/
def runRebuild {R : Type} (eng : RatingEngine R) (params : ParameterSet R)
    (db : EloDb R) : Except EloError (EloDb R) :=
  (runRebuildFull eng params db).map (fun r => r.1)

/-- Modelled from the spec: the RunLock (spec 3): at most one holder per
key; the key itself is factored out, one lock value per key. -/
structure RunLock where
  holder : Option String
deriving DecidableEq

/-- Modelled from the spec: acquire fails fast with LockUnavailableError
when a holder exists, and otherwise installs the caller as holder. -/
def acquireRunLock (lock : RunLock) (who : String) : Except EloError RunLock :=
  match lock.holder with
  | some _ => .error .lockUnavailableError
  | none => .ok { holder := some who }

/-- The observable outcome of trying to start a job. -/
inductive JobOutcome where
  | completed
  | lockUnavailable
  | failed (e : EloError)
deriving DecidableEq

/-- Modelled from the spec: start a processing job under the RunLock
(spec 4.3 steps 1 and 6): fail fast without touching any state when the
lock is held; otherwise run the job and release the lock on completion or
failure (a failed job's uncommitted work is not applied). -/
def runJobWithLock {R : Type} (lock : RunLock) (who : String) (db : EloDb R)
    (job : EloDb R → Except EloError (EloDb R)) :
    JobOutcome × RunLock × EloDb R :=
  match acquireRunLock lock who with
  | .error _ => (.lockUnavailable, lock, db)
  | .ok _ =>
    match job db with
    | .ok db2 => (.completed, { holder := none }, db2)
    | .error e => (.failed e, { holder := none }, db)

/-- Split a list into batches of `bsize` (at least one element per batch,
so a zero batch size degrades to one). -/
def chunksOf {α : Type} (bsize : Nat) : List α → List (List α)
  | [] => []
  | x :: xs => (x :: xs.take (bsize - 1)) :: chunksOf bsize (xs.drop (bsize - 1))
termination_by l => l.length
decreasing_by
  simp only [List.length_drop, List.length_cons]
  omega

/-- Modelled from the spec: advance the checkpoint to the last committed
match's total-order key; an empty batch leaves it unchanged (spec 3:
Checkpoint, spec 4.5). -/
def ckptAdvance (ck : Option (Nat × Nat)) (batch : List (Nat × Nat)) :
    Option (Nat × Nat) :=
  match batch.getLast? with
  | some k => some k
  | none => ck

/-- Modelled from the spec: the sequence of checkpoint values written by a
batched run whose i-th batch commit succeeds iff `commitOk i`; the
checkpoint is written only after a successful commit and the job aborts on
the first failed commit (spec 4.5, spec 7: PersistenceError). -/
def ckptRun (commitOk : Nat → Bool) :
    Nat → Option (Nat × Nat) → List (List (Nat × Nat)) →
      List (Option (Nat × Nat))
  | _, _, [] => []
  | i, ck, b :: bs =>
    if commitOk i then
      ckptAdvance ck b :: ckptRun commitOk (i + 1) (ckptAdvance ck b) bs
    else []

/-- The checkpoint trace of a batched incremental run over the current
eligible selection, starting from an empty checkpoint. -/
def incrementalCkptTrace {R : Type} (db : EloDb R) (bsize : Nat)
    (commitOk : Nat → Bool) : List (Option (Nat × Nat)) :=
  ckptRun commitOk 0 none (chunksOf bsize ((eligibleMatches db).map keyOf))

/-- Order on checkpoint values: an empty checkpoint precedes everything. -/
def optKeyLe : Option (Nat × Nat) → Option (Nat × Nat) → Prop
  | none, _ => True
  | some _, none => False
  | some a, some b => keyLe a b

/-- A simple concrete engine over integer ratings (a fixed K-point swing)
used to instantiate the generic orchestration theorems on concrete
stores. -/
def swingEngine : RatingEngine Int :=
  { initialRating := 1500,
    update := fun k _ ratingA ratingB winnerIsA =>
      if winnerIsA then (ratingA + k, ratingB - k)
      else (ratingA - k, ratingB + k) }

/-- A concrete parameter set with one context. -/
def exampleParams : ParameterSet Int :=
  { name := "base", version := "v1",
    constants := [("ATP", (32, 400))], isActive := true }

/-- A terminal, unprocessed match row between the given players at the
given temporal order. -/
def freshRow (mid playerA playerB temporalOrder : Nat) : MatchRow Int :=
  { mid := mid, playerA := playerA, playerB := playerB,
    status := "completed", winnerIsA := true,
    temporalOrder := temporalOrder, context := "ATP",
    preA := none, preB := none, postA := none, postB := none,
    paramsVersion := none, processed := false, needsRecompute := false }

/-- A terminal row already carrying a full set of snapshot fields. -/
def processedRow (mid playerA playerB temporalOrder : Nat) : MatchRow Int :=
  { freshRow mid playerA playerB temporalOrder with
    preA := some 1500, preB := some 1500,
    postA := some 1532, postB := some 1468,
    paramsVersion := some "v1", processed := true }

/-- A non-terminal (in-play) row. -/
def liveRow (mid playerA playerB temporalOrder : Nat) : MatchRow Int :=
  { freshRow mid playerA playerB temporalOrder with status := "live" }

/-- A store with stale annotations and player states, rebuild input. -/
def exampleDb1 : EloDb Int :=
  { rows := [{ processedRow 1 1 2 10 with needsRecompute := true },
      freshRow 2 1 3 20],
    players := [(1, { rating := 1532, lastKey := (10, 1) })] }

/-- The same match set as `exampleDb1` with clean annotations and no
player states. -/
def exampleDb2 : EloDb Int :=
  { rows := [freshRow 1 1 2 10, freshRow 2 1 3 20], players := [] }

/-- A store holding one fresh terminal match, one fully processed terminal
match and one in-play match. -/
def exampleDb6 : EloDb Int :=
  { rows := [freshRow 2 1 3 20, processedRow 1 1 2 10, liveRow 3 2 3 30],
    players := [(1, { rating := 1532, lastKey := (10, 1) }),
      (2, { rating := 1468, lastKey := (10, 1) })] }

/-- A store in which players 1 and 2 were already processed through the
match with key (10, 1), while a terminal match with the earlier key (5, 2)
for player 1 is newly eligible — an out-of-order arrival. -/
def exampleDb5 : EloDb Int :=
  { rows := [processedRow 1 1 2 10, freshRow 2 1 3 5],
    players := [(1, { rating := 1532, lastKey := (10, 1) }),
      (2, { rating := 1468, lastKey := (10, 1) })] }

/-- The store produced by one incremental run over `exampleDb5` (the run
that hits the out-of-order anomaly). -/
def exampleDb5After : EloDb Int :=
  ((runIncremental swingEngine exampleParams exampleDb5).toOption).getD
    { rows := [], players := [] }

/-- The store and snapshots produced by one anomaly-free incremental run
over `exampleDb6`. -/
def exampleDb6After : EloDb Int × List (Snap Int) :=
  ((runIncrementalFull swingEngine exampleParams exampleDb6).toOption).getD
    ({ rows := [], players := [] }, [])

/-- The rating the engine reads for a player: the stored current rating,
or the fixed initial rating for a player with no state yet. -/
def currentRating {R : Type} (eng : RatingEngine R)
    (players : List (Nat × PlayerState R)) (p : Nat) : R :=
  ((getPlayerState players p).map (fun e => e.rating)).getD eng.initialRating

/-- The snapshots of a trace involving player p, in application order. -/
def snapsFor {R : Type} (p : Nat) (l : List (Snap R)) : List (Snap R) :=
  l.filter (fun s => Snap.involves s p)

/-- Two consecutive snapshots of one player chain: the later one's
pre-rating for p is the earlier one's post-rating for p. -/
def chainLink {R : Type} (p : Nat) (a b : Snap R) : Prop :=
  Snap.preOf b p = Snap.postOf a p

/-- The processing invariant tying player states to the snapshot trace:
a player with state has a latest snapshot recording exactly that rating
as its post-rating, and a player without state appears in no snapshot. -/
def playersMatchSnaps {R : Type} (st : ProcState R) : Prop :=
  ∀ p : Nat,
    match getPlayerState st.players p with
    | some pst => ∃ s, (snapsFor p st.snaps).getLast? = some s ∧
        pst.rating = Snap.postOf s p
    | none => (snapsFor p st.snaps).getLast? = none

/-- Three terminal matches between the same two players, keys (1,1),
(2,2), (3,3). -/
def exampleDb4 : EloDb Int :=
  { rows := [freshRow 1 1 2 1, freshRow 2 1 2 2, freshRow 3 1 2 3],
    players := [] }

/-- The store and snapshot trace of a full rebuild over `exampleDb4`. -/
def exampleDb4Res : EloDb Int × List (Snap Int) :=
  ((runRebuildFull swingEngine exampleParams exampleDb4).toOption).getD
    ({ rows := [], players := [] }, [])

/-! ## Theorems -/

/-! ### Order facts about total-order keys -/

theorem keyLe_refl (a : Nat × Nat) : keyLe a a := by
  unfold keyLe; omega

theorem keyLe_trans {a b c : Nat × Nat} (h1 : keyLe a b) (h2 : keyLe b c) :
    keyLe a c := by
  unfold keyLe at h1 h2 ⊢; omega

theorem keyLe_total (a b : Nat × Nat) : keyLe a b ∨ keyLe b a := by
  unfold keyLe; omega

theorem keyLt_of_keyLe_of_ne {a b : Nat × Nat} (h : keyLe a b) (hne : a ≠ b) :
    keyLt a b := by
  rcases a with ⟨a1, a2⟩
  rcases b with ⟨b1, b2⟩
  have hne2 : ¬ (a1 = b1 ∧ a2 = b2) := by
    intro hc
    exact hne (by rw [hc.1, hc.2])
  unfold keyLe at h
  unfold keyLt
  omega

theorem keyLt_asymm {a b : Nat × Nat} (h : keyLt a b) : ¬ keyLt b a := by
  unfold keyLt at h ⊢; omega

theorem keyLe_of_keyLt {a b : Nat × Nat} (h : keyLt a b) : keyLe a b := by
  unfold keyLt at h; unfold keyLe; omega

theorem keyLt_trans {a b c : Nat × Nat} (h1 : keyLt a b) (h2 : keyLt b c) :
    keyLt a c := by
  unfold keyLt at h1 h2 ⊢; omega

instance {R : Type} : IsTotal (MatchRow R) matchLe :=
  ⟨fun a b => keyLe_total (keyOf a) (keyOf b)⟩

instance {R : Type} : IsTrans (MatchRow R) matchLe :=
  ⟨fun _ _ _ h1 h2 => keyLe_trans h1 h2⟩

/-! ### Selection facts -/

theorem eligible_mids_nodup {R : Type} (db : EloDb R)
    (h : (db.rows.map (fun m => m.mid)).Nodup) :
    ((eligibleMatches db).map (fun m => m.mid)).Nodup := by
  have hsub : ((db.rows.filter eloEligible).map (fun m => m.mid)).Nodup :=
    List.Nodup.sublist (List.Sublist.map _ (List.filter_sublist _)) h
  have hperm : List.Perm (eligibleMatches db) (db.rows.filter eloEligible) :=
    List.perm_insertionSort matchLe _
  exact ((hperm.map (fun m => m.mid)).nodup_iff).mpr hsub

theorem eligible_pairwise_keyLt {R : Type} (db : EloDb R)
    (h : (db.rows.map (fun m => m.mid)).Nodup) :
    List.Pairwise (fun a b : MatchRow R => keyLt (keyOf a) (keyOf b))
      (eligibleMatches db) := by
  have hsorted : List.Pairwise (@matchLe R) (eligibleMatches db) :=
    List.sorted_insertionSort matchLe (db.rows.filter eloEligible)
  have hmids : List.Pairwise (fun a b : MatchRow R => a.mid ≠ b.mid)
      (eligibleMatches db) :=
    (List.pairwise_map).mp (eligible_mids_nodup db h)
  refine (hsorted.and hmids).imp ?_
  intro a b hab
  refine keyLt_of_keyLe_of_ne hab.1 ?_
  intro he
  exact hab.2 (congrArg Prod.snd he)

/-- C6: incremental selection returns exactly the matches whose status is
in the fixed terminal set and whose post-ratings are unset or whose
needs_recompute flag is on, in strictly ascending (temporal_order,
identifier) order (given distinct identifiers); a match with any other
status is never selected. -/
theorem incremental_selection_exact {R : Type} (db : EloDb R)
    (h : (db.rows.map (fun m => m.mid)).Nodup) :
    (∀ m : MatchRow R, m ∈ eligibleMatches db ↔
        m ∈ db.rows ∧ m.status ∈ terminalStatuses ∧
          (m.postA.isNone || m.postB.isNone || m.needsRecompute) = true)
      ∧ List.Pairwise (fun a b : MatchRow R => keyLt (keyOf a) (keyOf b))
          (eligibleMatches db)
      ∧ (∀ m : MatchRow R, m.status ∉ terminalStatuses →
          m ∉ eligibleMatches db) := by
  have hmem : ∀ m : MatchRow R,
      m ∈ eligibleMatches db ↔ m ∈ db.rows ∧ eloEligible m = true := by
    intro m
    unfold eligibleMatches sortMatches
    rw [List.mem_insertionSort, List.mem_filter]
  refine ⟨?_, eligible_pairwise_keyLt db h, ?_⟩
  · intro m
    rw [hmem m]
    unfold eloEligible isTerminal
    constructor
    · rintro ⟨h1, h2⟩
      rw [Bool.and_eq_true] at h2
      exact ⟨h1, List.mem_of_elem_eq_true h2.1, h2.2⟩
    · rintro ⟨h1, h2, h3⟩
      refine ⟨h1, ?_⟩
      rw [Bool.and_eq_true]
      exact ⟨List.elem_eq_true_of_mem h2, h3⟩
  · intro m hst hin
    rw [hmem m] at hin
    have h2 := hin.2
    unfold eloEligible isTerminal at h2
    rw [Bool.and_eq_true] at h2
    exact hst (List.mem_of_elem_eq_true h2.1)

/-- C6 witness: on a concrete store with a fresh terminal match, a fully
processed terminal match and an in-play match, the selection facts hold. -/
theorem incremental_selection_exact_witness :
    (∀ m : MatchRow Int, m ∈ eligibleMatches exampleDb6 ↔
        m ∈ exampleDb6.rows ∧ m.status ∈ terminalStatuses ∧
          (m.postA.isNone || m.postB.isNone || m.needsRecompute) = true)
      ∧ List.Pairwise (fun a b : MatchRow Int => keyLt (keyOf a) (keyOf b))
          (eligibleMatches exampleDb6)
      ∧ (∀ m : MatchRow Int, m.status ∉ terminalStatuses →
          m ∉ eligibleMatches exampleDb6) :=
  incremental_selection_exact exampleDb6 (by decide)

/-- C1: a rebuild is a deterministic function of the match set and the
ParameterSet alone — two stores holding the same match inputs, whatever
their pre-existing annotations and PlayerRatingState rows, rebuild to
identical PlayerRatingState rows and identical per-match snapshots. -/
theorem rebuild_deterministic {R : Type} (eng : RatingEngine R)
    (params : ParameterSet R) (db1 db2 : EloDb R)
    (h : db1.rows.map matchInput = db2.rows.map matchInput) :
    runRebuildFull eng params db1 = runRebuildFull eng params db2 := by
  have e1 : ∀ dbx : EloDb R,
      dbx.rows.map clearRow = (dbx.rows.map matchInput).map rowOfInput := by
    intro dbx
    rw [List.map_map]
    rfl
  have hreset : resetDb db1 = resetDb db2 := by
    unfold resetDb
    rw [e1 db1, e1 db2, h]
  unfold runRebuildFull
  rw [hreset]

/-- C1 witness: a store with stale snapshots, a stale flag and a player
state rebuilds exactly as the cleaned store with the same matches does. -/
theorem rebuild_deterministic_witness :
    exampleDb1.rows.map matchInput = exampleDb2.rows.map matchInput ∧
      runRebuildFull swingEngine exampleParams exampleDb1 =
        runRebuildFull swingEngine exampleParams exampleDb2 :=
  ⟨by decide,
    rebuild_deterministic swingEngine exampleParams exampleDb1 exampleDb2
      (by decide)⟩

/-- C9: when `state.gender` is the empty string (remaining fields equal),
the newer controller's `buildQueryString` returns exactly the older
controller's query string: `getEffectiveTourFilters` is then an unmodified
copy of `state.tour` and no gender parameter is added. -/
theorem newer_filter_refines_older (state : MatchesFilterState)
    (h : state.gender = "") :
    buildQueryStringNew state = buildQueryStringOld state := by
  unfold buildQueryStringNew buildQueryStringOld buildQueryParamsNew
    buildQueryParamsOld getEffectiveTourFilters
  rw [h]
  simp

/-- C9 witness: a concrete filter state with empty gender, one tour and a
player filter, on which the two controllers agree. -/
theorem newer_filter_refines_older_witness :
    exampleState9.gender = "" ∧
      buildQueryStringNew exampleState9 = buildQueryStringOld exampleState9 :=
  ⟨rfl, newer_filter_refines_older exampleState9 rfl⟩

/-- C10 counterexample: with gender "men" and `state.tour` equal to the
full allowed list (so NOT empty), `getEffectiveTourFilters` still returns
the entire allowed set — refuting "returns the entire allowed set exactly
when state.tour is empty" read as an equivalence. -/
theorem effective_tours_full_set_on_nonempty_tour :
    getEffectiveTourFilters exampleState10 =
        getAllowedToursForGender "men" ∧
      exampleState10.tour ≠ [] := by
  constructor
  · rfl
  · decide

/-- C10 (amended): for gender "men" or "women", `getEffectiveTourFilters`
returns only tours in the allowed set for that gender; it returns the
entire allowed set whenever `state.tour` is empty (though possibly also
when `state.tour` is not empty); with empty gender it returns `state.tour`
unfiltered. -/
theorem effective_tours_respect_gender (state : MatchesFilterState)
    (h : state.gender = "men" ∨ state.gender = "women") :
    (∀ t ∈ getEffectiveTourFilters state,
        t ∈ getAllowedToursForGender state.gender) ∧
      (state.tour = [] →
        getEffectiveTourFilters state = getAllowedToursForGender state.gender) ∧
      (∀ s2 : MatchesFilterState, s2.gender = "" →
        getEffectiveTourFilters s2 = s2.tour) := by
  have hne : ¬ state.gender = "" := by
    rcases h with h | h <;> rw [h] <;> decide
  refine ⟨?_, ?_, ?_⟩
  · intro t ht
    unfold getEffectiveTourFilters at ht
    rw [if_neg hne] at ht
    by_cases htour : state.tour.length = 0
    · rw [if_pos htour] at ht
      exact ht
    · rw [if_neg htour] at ht
      have := List.mem_filter.mp ht
      exact List.mem_of_elem_eq_true this.2
  · intro htour
    unfold getEffectiveTourFilters
    rw [if_neg hne, htour]
    simp
  · intro s2 h2
    unfold getEffectiveTourFilters
    rw [if_pos h2]

/-- C10 witness: gender "women" with a mixed tour list keeps only the
allowed tours; with empty tour the whole allowed set comes back; with
empty gender the tour list is returned untouched. -/
theorem effective_tours_respect_gender_witness :
    (∀ t ∈ getEffectiveTourFilters exampleState10b,
        t ∈ getAllowedToursForGender exampleState10b.gender) ∧
      (exampleState10b.tour = [] →
        getEffectiveTourFilters exampleState10b =
          getAllowedToursForGender exampleState10b.gender) ∧
      (∀ s2 : MatchesFilterState, s2.gender = "" →
        getEffectiveTourFilters s2 = s2.tour) :=
  effective_tours_respect_gender exampleState10b (Or.inr rfl)

/-- C2: for a single isolated match between two players at the fixed
initial rating 1500 with K = 32, S = 400 and a win for A, the Rating
Engine's formulas give E_A = 1/2, post_A = 1516 and post_B = 1484. -/
theorem single_match_sanity :
    expectedScore 1500 1500 400 = 1 / 2 ∧
      ratingUpdate 32 400 1500 1500 true = (1516, 1484) := by
  have he : expectedScore 1500 1500 400 = 1 / 2 := by
    unfold expectedScore
    have h0 : ((1500 : ℝ) - 1500) / 400 = (0 : ℝ) := by norm_num
    rw [h0, Real.rpow_zero]
    norm_num
  refine ⟨he, ?_⟩
  unfold ratingUpdate
  rw [he]
  norm_num [Prod.ext_iff]

/-- C8: acquiring the RunLock succeeds iff no holder exists, and starting
any job (rebuild or incremental alike) while the lock is held returns
LockUnavailableError's outcome at once, leaving the rating store, the
match rows and the lock holder unchanged. -/
theorem run_lock_mutual_exclusion {R : Type} (lock : RunLock) (who : String)
    (db : EloDb R) (job : EloDb R → Except EloError (EloDb R)) :
    ((acquireRunLock lock who).isOk = true ↔ lock.holder = none) ∧
      (∀ holder, lock.holder = some holder →
        runJobWithLock lock who db job = (.lockUnavailable, lock, db)) := by
  constructor
  · cases h : lock.holder with
    | none => simp [acquireRunLock, h, Except.isOk, Except.toBool]
    | some w => simp [acquireRunLock, h, Except.isOk, Except.toBool]
  · intro holder h
    unfold runJobWithLock acquireRunLock
    rw [h]

/-- C8 witness: a held lock rejects a second job and leaves everything
unchanged; a free lock is acquirable. -/
theorem run_lock_mutual_exclusion_witness :
    ((acquireRunLock { holder := some "rebuild" } "incremental").isOk = true ↔
        ({ holder := some "rebuild" } : RunLock).holder = none) ∧
      (∀ holder,
        ({ holder := some "rebuild" } : RunLock).holder = some holder →
        runJobWithLock { holder := some "rebuild" } "incremental"
            (⟨[], []⟩ : EloDb Int) (runIncremental swingEngine exampleParams) =
          (.lockUnavailable, { holder := some "rebuild" }, ⟨[], []⟩)) :=
  run_lock_mutual_exclusion { holder := some "rebuild" } "incremental"
    (⟨[], []⟩ : EloDb Int) (runIncremental swingEngine exampleParams)

/-! ### Row write-back facts -/

theorem applySnapToRow_fields {R : Type} (v : String) (s : Snap R)
    (m : MatchRow R) :
    (applySnapToRow v s m).mid = m.mid ∧
      (applySnapToRow v s m).playerA = m.playerA ∧
      (applySnapToRow v s m).playerB = m.playerB ∧
      (applySnapToRow v s m).temporalOrder = m.temporalOrder ∧
      (applySnapToRow v s m).status = m.status ∧
      (applySnapToRow v s m).processed = true ∧
      (applySnapToRow v s m).postA.isSome = true ∧
      (applySnapToRow v s m).postB.isSome = true ∧
      (applySnapToRow v s m).needsRecompute = (m.needsRecompute || s.flagged) :=
  ⟨rfl, rfl, rfl, rfl, rfl, rfl, rfl, rfl, rfl⟩

theorem markWrite_fields {R : Type} (marks : List (Nat × (Nat × Nat)))
    (m : MatchRow R) :
    (markWrite marks m).mid = m.mid ∧
      (markWrite marks m).playerA = m.playerA ∧
      (markWrite marks m).playerB = m.playerB ∧
      (markWrite marks m).temporalOrder = m.temporalOrder ∧
      (markWrite marks m).status = m.status ∧
      (markWrite marks m).preA = m.preA ∧
      (markWrite marks m).preB = m.preB ∧
      (markWrite marks m).postA = m.postA ∧
      (markWrite marks m).postB = m.postB ∧
      (markWrite marks m).paramsVersion = m.paramsVersion ∧
      (markWrite marks m).processed = m.processed := by
  unfold markWrite
  split
  · exact ⟨rfl, rfl, rfl, rfl, rfl, rfl, rfl, rfl, rfl, rfl, rfl⟩
  · exact ⟨rfl, rfl, rfl, rfl, rfl, rfl, rfl, rfl, rfl, rfl, rfl⟩

theorem markWrite_flag {R : Type} (marks : List (Nat × (Nat × Nat)))
    (m : MatchRow R) :
    (markWrite marks m).needsRecompute =
      (m.needsRecompute || markApplies marks m) := by
  unfold markWrite
  cases h : markApplies marks m <;> simp [h]

theorem snapWrite_of_none {R : Type} (v : String) (snaps : List (Snap R))
    (m : MatchRow R) (h : findSnap snaps m.mid = none) :
    snapWrite v snaps m = m := by
  unfold snapWrite
  rw [h]

theorem snapWrite_of_some {R : Type} (v : String) (snaps : List (Snap R))
    (m : MatchRow R) (s : Snap R) (h : findSnap snaps m.mid = some s) :
    snapWrite v snaps m = applySnapToRow v s m := by
  unfold snapWrite
  rw [h]

theorem findSnap_isSome_iff {R : Type} (snaps : List (Snap R)) (i : Nat) :
    (findSnap snaps i).isSome = true ↔ ∃ s ∈ snaps, s.mid = i := by
  unfold findSnap
  rw [List.find?_isSome]
  simp

theorem findSnap_eq_none {R : Type} (snaps : List (Snap R)) (i : Nat)
    (h : ∀ s ∈ snaps, s.mid ≠ i) : findSnap snaps i = none := by
  unfold findSnap
  rw [List.find?_eq_none]
  intro x hx
  simp [h x hx]

theorem findSnap_some_facts {R : Type} {snaps : List (Snap R)} {i : Nat}
    {s : Snap R} (h : findSnap snaps i = some s) : s ∈ snaps ∧ s.mid = i := by
  unfold findSnap at h
  refine ⟨List.mem_of_find?_eq_some h, ?_⟩
  have h2 := List.find?_some h
  simpa using h2

theorem markApplies_nil {R : Type} (m : MatchRow R) :
    markApplies [] m = false := rfl

theorem snapWrite_nil {R : Type} (v : String) (m : MatchRow R) :
    snapWrite v [] m = m := rfl

theorem markWrite_of_not {R : Type} (marks : List (Nat × (Nat × Nat)))
    (m : MatchRow R) (h : markApplies marks m = false) :
    markWrite marks m = m := by
  unfold markWrite
  simp [h]

/-! ### Processing facts -/

theorem processMatches_nil {R : Type} (eng : RatingEngine R)
    (params : ParameterSet R) (st : ProcState R) :
    processMatches eng params [] st = .ok st := rfl

theorem processMatches_cons_ok {R : Type} {eng : RatingEngine R}
    {params : ParameterSet R} {m : MatchRow R} {ms : List (MatchRow R)}
    {st stF : ProcState R}
    (h : processMatches eng params (m :: ms) st = .ok stF) :
    ∃ ks, lookupConstants params m.context = some ks ∧
      processMatches eng params ms (applyOne eng ks st m) = .ok stF := by
  unfold processMatches at h
  cases hks : lookupConstants params m.context with
  | none =>
    rw [hks] at h
    exact Except.noConfusion h
  | some ks =>
    rw [hks] at h
    exact ⟨ks, rfl, h⟩

theorem applyOne_snaps {R : Type} (eng : RatingEngine R) (ks : R × R)
    (st : ProcState R) (m : MatchRow R) :
    ∃ s : Snap R, (applyOne eng ks st m).snaps = st.snaps ++ [s] ∧
      s.mid = m.mid ∧ s.key = keyOf m ∧
      s.playerA = m.playerA ∧ s.playerB = m.playerB ∧
      s.flagged = (anomalousFor st.players m m.playerA ||
        anomalousFor st.players m m.playerB) :=
  ⟨_, rfl, rfl, rfl, rfl, rfl, rfl⟩

theorem applyOne_players_of_anom {R : Type} (eng : RatingEngine R) (ks : R × R)
    (st : ProcState R) (m : MatchRow R)
    (h : (anomalousFor st.players m m.playerA ||
      anomalousFor st.players m m.playerB) = true) :
    (applyOne eng ks st m).players = st.players := by
  unfold applyOne
  simp [h]

theorem applyOne_marks {R : Type} (eng : RatingEngine R) (ks : R × R)
    (st : ProcState R) (m : MatchRow R) :
    (applyOne eng ks st m).marks = st.marks
      ++ (if anomalousFor st.players m m.playerA
            then [(m.playerA, keyOf m)] else [])
      ++ (if anomalousFor st.players m m.playerB
            then [(m.playerB, keyOf m)] else []) := rfl

theorem processMatches_snaps_facts {R : Type} (eng : RatingEngine R)
    (params : ParameterSet R) :
    ∀ (ms : List (MatchRow R)) (st stF : ProcState R),
      processMatches eng params ms st = .ok stF →
      (∀ s ∈ st.snaps, s ∈ stF.snaps) ∧
        (∀ s ∈ stF.snaps, s ∈ st.snaps ∨ ∃ m ∈ ms, s.mid = m.mid) ∧
        (∀ m ∈ ms, ∃ s ∈ stF.snaps, s.mid = m.mid) := by
  intro ms
  induction ms with
  | nil =>
    intro st stF h
    rw [processMatches_nil] at h
    injection h with h2
    subst h2
    refine ⟨fun s hs => hs, fun s hs => Or.inl hs, fun m hm => absurd hm ?_⟩
    simp
  | cons m ms ih =>
    intro st stF h
    obtain ⟨ks, hks, h2⟩ := processMatches_cons_ok h
    obtain ⟨hmono, hsub, hall⟩ := ih (applyOne eng ks st m) stF h2
    obtain ⟨s0, hs0eq, hs0mid, _, _, _, _⟩ := applyOne_snaps eng ks st m
    refine ⟨?_, ?_, ?_⟩
    · intro s hs
      refine hmono s ?_
      rw [hs0eq]
      exact List.mem_append_left _ hs
    · intro s hs
      rcases hsub s hs with hin | ⟨m2, hm2, he⟩
      · rw [hs0eq] at hin
        rcases List.mem_append.mp hin with h3 | h3
        · exact Or.inl h3
        · right
          refine ⟨m, List.mem_cons_self m ms, ?_⟩
          rw [List.mem_singleton] at h3
          rw [h3, hs0mid]
      · exact Or.inr ⟨m2, List.mem_cons_of_mem m hm2, he⟩
    · intro m2 hm2
      rcases List.mem_cons.mp hm2 with he | hin
      · refine ⟨s0, hmono s0 ?_, ?_⟩
        · rw [hs0eq]
          exact List.mem_append_right _ (List.mem_singleton_self s0)
        · rw [hs0mid, he]
      · exact hall m2 hin

theorem snapWrite_keyOf {R : Type} (v : String) (snaps : List (Snap R))
    (r : MatchRow R) : keyOf (snapWrite v snaps r) = keyOf r := by
  unfold snapWrite
  cases h : findSnap snaps r.mid <;> rfl

theorem snapWrite_playerA {R : Type} (v : String) (snaps : List (Snap R))
    (r : MatchRow R) : (snapWrite v snaps r).playerA = r.playerA := by
  unfold snapWrite
  cases h : findSnap snaps r.mid <;> rfl

theorem snapWrite_playerB {R : Type} (v : String) (snaps : List (Snap R))
    (r : MatchRow R) : (snapWrite v snaps r).playerB = r.playerB := by
  unfold snapWrite
  cases h : findSnap snaps r.mid <;> rfl

theorem snapWrite_status {R : Type} (v : String) (snaps : List (Snap R))
    (r : MatchRow R) : (snapWrite v snaps r).status = r.status := by
  unfold snapWrite
  cases h : findSnap snaps r.mid <;> rfl

theorem snapWrite_flag {R : Type} (v : String) (snaps : List (Snap R))
    (r : MatchRow R) (h : r.needsRecompute = true) :
    (snapWrite v snaps r).needsRecompute = true := by
  unfold snapWrite
  cases hf : findSnap snaps r.mid
  · exact h
  · unfold applySnapToRow
    simp [h]

theorem markApplies_of_mem {R : Type} {marks : List (Nat × (Nat × Nat))}
    {r : MatchRow R} {q : Nat} {k : Nat × Nat}
    (hm : (q, k) ∈ marks) (hq : r.playerA = q ∨ r.playerB = q)
    (hk : keyLe k (keyOf r)) : markApplies marks r = true := by
  unfold markApplies
  rw [List.any_eq_true]
  refine ⟨(q, k), hm, ?_⟩
  rw [Bool.and_eq_true]
  constructor
  · rcases hq with h | h <;> simp [h]
  · simp [hk]

theorem markApplies_eq_false {R : Type} {marks : List (Nat × (Nat × Nat))}
    {r : MatchRow R}
    (h : ∀ e ∈ marks, ¬((r.playerA = e.1 ∨ r.playerB = e.1) ∧
      keyLe e.2 (keyOf r))) : markApplies marks r = false := by
  unfold markApplies
  rw [List.any_eq_false]
  intro e he
  have hne := h e he
  by_cases hAB : r.playerA = e.1 ∨ r.playerB = e.1
  · have hC : ¬ keyLe e.2 (keyOf r) := fun hc => hne ⟨hAB, hc⟩
    simp [hC]
  · rw [not_or] at hAB
    simp [hAB.1, hAB.2]

theorem applyOne_marks_mem {R : Type} (eng : RatingEngine R) (ks : R × R)
    (st : ProcState R) (m : MatchRow R) (hstm : st.marks = []) :
    ∀ e ∈ (applyOne eng ks st m).marks,
      (e.1 = m.playerA ∨ e.1 = m.playerB) ∧ e.2 = keyOf m ∧
        anomalousFor st.players m e.1 = true := by
  intro e he
  rw [applyOne_marks, hstm, List.nil_append] at he
  by_cases hA : anomalousFor st.players m m.playerA = true
  · by_cases hB : anomalousFor st.players m m.playerB = true
    · simp [hA, hB] at he
      rcases he with he | he <;> subst he
      · exact ⟨Or.inl rfl, rfl, hA⟩
      · exact ⟨Or.inr rfl, rfl, hB⟩
    · simp [hA, hB] at he
      subst he
      exact ⟨Or.inl rfl, rfl, hA⟩
  · by_cases hB : anomalousFor st.players m m.playerB = true
    · simp [hA, hB] at he
      subst he
      exact ⟨Or.inr rfl, rfl, hB⟩
    · simp [hA, hB] at he

/-- C5: out-of-order arrival policy, for a run whose eligible selection is
exactly the newly-eligible match m with a participant p whose
PlayerRatingState records a later last-processed key.  The match is still
processed and written (never dropped); it and every match of p with
total-order key at or after the anomaly get needs_recompute = true; a row
other than m touched by no anomalous participant at-or-after the anomaly
keeps its flag; rating/snapshot fields of every other row and all
PlayerRatingState rows are left unmodified; and flags are never cleared. -/
theorem out_of_order_flagging {R : Type} (eng : RatingEngine R)
    (params : ParameterSet R) (db : EloDb R) (m : MatchRow R) (p : Nat)
    (hsel : eligibleMatches db = [m])
    (hks : (lookupConstants params m.context).isSome = true)
    (hpart : m.playerA = p ∨ m.playerB = p)
    (hanom : anomalousFor db.players m p = true) :
    ∃ out, runIncrementalFull eng params db = .ok out ∧
      out.1.players = db.players ∧
      ∃ f : MatchRow R → MatchRow R, out.1.rows = db.rows.map f ∧
        ∀ r ∈ db.rows,
          (r.mid = m.mid → (f r).processed = true ∧
            (f r).postA.isSome = true ∧ (f r).postB.isSome = true ∧
            (f r).needsRecompute = true) ∧
          ((r.playerA = p ∨ r.playerB = p) → keyLe (keyOf m) (keyOf r) →
            (f r).needsRecompute = true) ∧
          (r.mid ≠ m.mid →
            (f r).preA = r.preA ∧ (f r).preB = r.preB ∧
            (f r).postA = r.postA ∧ (f r).postB = r.postB ∧
            (f r).paramsVersion = r.paramsVersion ∧
            (f r).processed = r.processed) ∧
          (r.mid ≠ m.mid →
            (∀ q, (q = m.playerA ∨ q = m.playerB) →
              anomalousFor db.players m q = true →
              ¬((r.playerA = q ∨ r.playerB = q) ∧ keyLe (keyOf m) (keyOf r))) →
            (f r).needsRecompute = r.needsRecompute) ∧
          (r.needsRecompute = true → (f r).needsRecompute = true) := by
  obtain ⟨ks, hks2⟩ := Option.isSome_iff_exists.mp hks
  have hanomOr : (anomalousFor db.players m m.playerA ||
      anomalousFor db.players m m.playerB) = true := by
    rw [Bool.or_eq_true]
    rcases hpart with hp | hp
    · left
      rw [hp]
      exact hanom
    · right
      rw [hp]
      exact hanom
  have hrun : runIncrementalFull eng params db =
      .ok ({ rows := db.rows.map (writeRow params.version
              (applyOne eng ks
                { players := db.players, snaps := [], marks := [] } m)),
             players := (applyOne eng ks
              { players := db.players, snaps := [], marks := [] } m).players },
           (applyOne eng ks
             { players := db.players, snaps := [], marks := [] } m).snaps) := by
    unfold runIncrementalFull
    rw [hsel]
    simp only [processMatches, hks2]
    rfl
  refine ⟨_, hrun, ?_, ?_⟩
  · exact applyOne_players_of_anom eng ks _ m hanomOr
  · refine ⟨writeRow params.version
      (applyOne eng ks { players := db.players, snaps := [], marks := [] } m),
      rfl, ?_⟩
    intro r hr
    obtain ⟨s0, hs0eq, hs0mid, hs0key, hs0pa, hs0pb, hs0flag⟩ :=
      applyOne_snaps eng ks
        { players := db.players, snaps := [], marks := [] } m
    rw [List.nil_append] at hs0eq
    have hs0flagT : s0.flagged = true := by
      rw [hs0flag]
      exact hanomOr
    have hmarksmem := applyOne_marks_mem eng ks
      { players := db.players, snaps := [], marks := [] } m rfl
    have hpmark : (p, keyOf m) ∈ (applyOne eng ks
        { players := db.players, snaps := [], marks := [] } m).marks := by
      rw [applyOne_marks, List.nil_append]
      rcases hpart with hp | hp
      · have hA : anomalousFor db.players m m.playerA = true := by
          rw [hp]; exact hanom
        rw [hp] at hA ⊢
        simp [hA]
      · have hB : anomalousFor db.players m m.playerB = true := by
          rw [hp]; exact hanom
        rw [hp] at hB ⊢
        simp [hB]
    refine ⟨?_, ?_, ?_, ?_, ?_⟩
    · -- the anomalous match is processed and written
      intro hmid
      have hfs : findSnap (applyOne eng ks
          { players := db.players, snaps := [], marks := [] } m).snaps r.mid =
          some s0 := by
        rw [hs0eq]
        unfold findSnap
        refine List.find?_cons_of_pos _ ?_
        rw [hs0mid, hmid]
        exact beq_self_eq_true m.mid
      unfold writeRow
      rw [snapWrite_of_some _ _ _ _ hfs]
      have hmf := markWrite_fields (applyOne eng ks
        { players := db.players, snaps := [], marks := [] } m).marks
        (applySnapToRow params.version s0 r)
      refine ⟨?_, ?_, ?_, ?_⟩
      · rw [hmf.2.2.2.2.2.2.2.2.2.2]
        rfl
      · rw [hmf.2.2.2.2.2.2.2.1]
        rfl
      · rw [hmf.2.2.2.2.2.2.2.2.1]
        rfl
      · rw [markWrite_flag]
        have : (applySnapToRow params.version s0 r).needsRecompute = true := by
          unfold applySnapToRow
          simp [hs0flagT]
        rw [this]
        rfl
    · -- every match of p at or after the anomaly is flagged
      intro hq hk
      unfold writeRow
      rw [markWrite_flag]
      have hma : markApplies (applyOne eng ks
          { players := db.players, snaps := [], marks := [] } m).marks
          (snapWrite params.version (applyOne eng ks
            { players := db.players, snaps := [], marks := [] } m).snaps r) =
          true := by
        refine markApplies_of_mem hpmark ?_ ?_
        · rw [snapWrite_playerA, snapWrite_playerB]
          exact hq
        · rw [snapWrite_keyOf]
          exact hk
      rw [hma]
      simp
    · -- rating fields of other rows are untouched
      intro hmid
      have hfs : findSnap (applyOne eng ks
          { players := db.players, snaps := [], marks := [] } m).snaps r.mid =
          none := by
        rw [hs0eq]
        refine findSnap_eq_none _ _ ?_
        intro s hs
        rw [List.mem_singleton] at hs
        rw [hs, hs0mid]
        exact fun hc => hmid (hc.symm)
      unfold writeRow
      rw [snapWrite_of_none _ _ _ hfs]
      have hmf := markWrite_fields (applyOne eng ks
        { players := db.players, snaps := [], marks := [] } m).marks r
      exact ⟨hmf.2.2.2.2.2.1, hmf.2.2.2.2.2.2.1, hmf.2.2.2.2.2.2.2.1,
        hmf.2.2.2.2.2.2.2.2.1, hmf.2.2.2.2.2.2.2.2.2.1,
        hmf.2.2.2.2.2.2.2.2.2.2⟩
    · -- no unrelated row is marked
      intro hmid hunrel
      have hfs : findSnap (applyOne eng ks
          { players := db.players, snaps := [], marks := [] } m).snaps r.mid =
          none := by
        rw [hs0eq]
        refine findSnap_eq_none _ _ ?_
        intro s hs
        rw [List.mem_singleton] at hs
        rw [hs, hs0mid]
        exact fun hc => hmid (hc.symm)
      unfold writeRow
      rw [snapWrite_of_none _ _ _ hfs]
      rw [markWrite_flag]
      have hma : markApplies (applyOne eng ks
          { players := db.players, snaps := [], marks := [] } m).marks r =
          false := by
        refine markApplies_eq_false ?_
        intro e he
        obtain ⟨he1, he2, he3⟩ := hmarksmem e he
        rw [he2]
        exact hunrel e.1 he1 he3
      rw [hma]
      simp
    · -- flags are never cleared
      intro hflag
      unfold writeRow
      rw [markWrite_flag, snapWrite_flag _ _ _ hflag]
      simp

/-- C5 witness: the out-of-order policy on the concrete store
`exampleDb5`, whose only eligible match arrives with a key earlier than
player 1's last-processed key. -/
theorem out_of_order_flagging_witness :
    ∃ out, runIncrementalFull swingEngine exampleParams exampleDb5 = .ok out ∧
      out.1.players = exampleDb5.players ∧
      ∃ f : MatchRow Int → MatchRow Int, out.1.rows = exampleDb5.rows.map f ∧
        ∀ r ∈ exampleDb5.rows,
          (r.mid = (freshRow 2 1 3 5).mid → (f r).processed = true ∧
            (f r).postA.isSome = true ∧ (f r).postB.isSome = true ∧
            (f r).needsRecompute = true) ∧
          ((r.playerA = 1 ∨ r.playerB = 1) →
            keyLe (keyOf (freshRow 2 1 3 5)) (keyOf r) →
            (f r).needsRecompute = true) ∧
          (r.mid ≠ (freshRow 2 1 3 5).mid →
            (f r).preA = r.preA ∧ (f r).preB = r.preB ∧
            (f r).postA = r.postA ∧ (f r).postB = r.postB ∧
            (f r).paramsVersion = r.paramsVersion ∧
            (f r).processed = r.processed) ∧
          (r.mid ≠ (freshRow 2 1 3 5).mid →
            (∀ q, (q = (freshRow 2 1 3 5).playerA ∨
                q = (freshRow 2 1 3 5).playerB) →
              anomalousFor exampleDb5.players (freshRow 2 1 3 5) q = true →
              ¬((r.playerA = q ∨ r.playerB = q) ∧
                keyLe (keyOf (freshRow 2 1 3 5)) (keyOf r))) →
            (f r).needsRecompute = r.needsRecompute) ∧
          (r.needsRecompute = true → (f r).needsRecompute = true) :=
  out_of_order_flagging swingEngine exampleParams exampleDb5
    (freshRow 2 1 3 5) 1 (by decide) (by decide) (Or.inl rfl) (by decide)

theorem list_map_self {α : Type} {l : List α} {f : α → α}
    (h : ∀ x ∈ l, f x = x) : l.map f = l := by
  induction l with
  | nil => rfl
  | cons x xs ih =>
    rw [List.map_cons, h x (List.mem_cons_self x xs),
      ih (fun y hy => h y (List.mem_cons_of_mem x hy))]

theorem mem_eligibleMatches {R : Type} {db : EloDb R} {m : MatchRow R} :
    m ∈ eligibleMatches db ↔ m ∈ db.rows ∧ eloEligible m = true := by
  unfold eligibleMatches sortMatches
  rw [List.mem_insertionSort, List.mem_filter]

theorem writeRow_of_empty {R : Type} (v : String)
    (ps : List (Nat × PlayerState R)) (r : MatchRow R) :
    writeRow v { players := ps, snaps := [], marks := [] } r = r := by
  show markWrite [] (snapWrite v [] r) = r
  rw [snapWrite_nil]
  exact markWrite_of_not _ _ (markApplies_nil r)

theorem runIncrementalFull_of_no_eligible {R : Type} (eng : RatingEngine R)
    (params : ParameterSet R) (db : EloDb R) (h : eligibleMatches db = []) :
    runIncrementalFull eng params db = .ok (db, []) := by
  unfold runIncrementalFull
  rw [h, processMatches_nil]
  simp only [Except.map]
  have hrows : db.rows.map (writeRow params.version
      { players := db.players, snaps := [], marks := [] }) = db.rows :=
    list_map_self (fun r _ => writeRow_of_empty _ _ r)
  rw [hrows]

/-- C3 (amended): idempotence of incremental mode holds for runs that
leave no needs_recompute flag (in particular anomaly-free runs): after a
completed incremental run with no flagged row in its output and distinct
match identifiers, the next selection is empty and a second run returns
the store unchanged with no snapshots. -/
theorem incremental_idempotent_when_unflagged {R : Type}
    (eng : RatingEngine R) (params : ParameterSet R) (db db2 : EloDb R)
    (snaps : List (Snap R))
    (hok : runIncrementalFull eng params db = .ok (db2, snaps))
    (hids : (db.rows.map (fun m => m.mid)).Nodup)
    (hclean : ∀ r ∈ db2.rows, r.needsRecompute = false) :
    eligibleMatches db2 = [] ∧
      runIncrementalFull eng params db2 = .ok (db2, []) := by
  unfold runIncrementalFull at hok
  cases hp : processMatches eng params (eligibleMatches db)
      { players := db.players, snaps := [], marks := [] } with
  | error e =>
    rw [hp] at hok
    simp [Except.map] at hok
  | ok stF =>
    rw [hp] at hok
    simp only [Except.map] at hok
    injection hok with hok2
    rw [Prod.mk.injEq] at hok2
    obtain ⟨hdb2, hsnaps⟩ := hok2
    subst hdb2
    obtain ⟨hmono, hsub, hall⟩ :=
      processMatches_snaps_facts eng params (eligibleMatches db) _ stF hp
    have hclean2 : ∀ r ∈ db.rows,
        (writeRow params.version stF r).needsRecompute = false := by
      intro r hr
      exact hclean _ (List.mem_map_of_mem _ hr)
    have hineligible : ∀ r ∈ db.rows,
        eloEligible (writeRow params.version stF r) = false := by
      intro r hr
      have hflag := hclean2 r hr
      have hstat : (writeRow params.version stF r).status = r.status := by
        unfold writeRow
        rw [(markWrite_fields _ _).2.2.2.2.1, snapWrite_status]
      by_cases helig : eloEligible r = true
      · have hrsel : r ∈ eligibleMatches db :=
          mem_eligibleMatches.mpr ⟨hr, helig⟩
        obtain ⟨s, hs, hsmid⟩ := hall r hrsel
        have hfind : (findSnap stF.snaps r.mid).isSome = true :=
          (findSnap_isSome_iff _ _).mpr ⟨s, hs, hsmid⟩
        obtain ⟨s2, hs2⟩ := Option.isSome_iff_exists.mp hfind
        have hw : writeRow params.version stF r =
            markWrite stF.marks (applySnapToRow params.version s2 r) := by
          unfold writeRow
          rw [snapWrite_of_some _ _ _ _ hs2]
        have hpa : (writeRow params.version stF r).postA = some s2.postA := by
          rw [hw, (markWrite_fields _ _).2.2.2.2.2.2.2.1]
          rfl
        have hpb : (writeRow params.version stF r).postB = some s2.postB := by
          rw [hw, (markWrite_fields _ _).2.2.2.2.2.2.2.2.1]
          rfl
        unfold eloEligible
        rw [hflag, hpa, hpb]
        simp
      · have helig2 : eloEligible r = false := by
          cases h2 : eloEligible r
          · rfl
          · exact absurd h2 helig
        by_cases hterm : isTerminal r = true
        · have h3 : (r.postA.isNone || r.postB.isNone ||
              r.needsRecompute) = false := by
            unfold eloEligible at helig2
            rw [hterm, Bool.true_and] at helig2
            exact helig2
          cases hva : r.postA with
          | none =>
            rw [hva] at h3
            simp at h3
          | some va =>
            cases hvb : r.postB with
            | none =>
              rw [hvb] at h3
              simp at h3
            | some vb =>
              have hnone : findSnap stF.snaps r.mid = none := by
                refine findSnap_eq_none _ _ ?_
                intro s hs hsm
                rcases hsub s hs with hin | ⟨m2, hm2, he⟩
                · exact absurd hin (List.not_mem_nil s)
                · have hm2db : m2 ∈ db.rows := (mem_eligibleMatches.mp hm2).1
                  have hm2elig : eloEligible m2 = true :=
                    (mem_eligibleMatches.mp hm2).2
                  have hm2r : m2 = r :=
                    List.inj_on_of_nodup_map hids hm2db hr (by rw [← he, hsm])
                  rw [hm2r, helig2] at hm2elig
                  exact Bool.noConfusion hm2elig
              have hwr : writeRow params.version stF r =
                  markWrite stF.marks r := by
                unfold writeRow
                rw [snapWrite_of_none _ _ _ hnone]
              have hpa : (writeRow params.version stF r).postA = r.postA := by
                rw [hwr, (markWrite_fields _ _).2.2.2.2.2.2.2.1]
              have hpb : (writeRow params.version stF r).postB = r.postB := by
                rw [hwr, (markWrite_fields _ _).2.2.2.2.2.2.2.2.1]
              unfold eloEligible
              rw [hflag, hpa, hpb, hva, hvb]
              simp
        · have hterm2 : isTerminal (writeRow params.version stF r) = false := by
            unfold isTerminal at hterm ⊢
            rw [hstat]
            cases h2 : terminalStatuses.contains r.status
            · rfl
            · exact absurd h2 hterm
          unfold eloEligible
          rw [hterm2]
          simp
    have hsel2 : eligibleMatches
        ({ rows := db.rows.map (writeRow params.version stF),
           players := stF.players } : EloDb R) = [] := by
      unfold eligibleMatches sortMatches
      have hfil : (db.rows.map (writeRow params.version stF)).filter
          eloEligible = [] := by
        rw [List.filter_eq_nil_iff]
        intro a ha
        obtain ⟨r, hr, hfr⟩ := List.mem_map.mp ha
        rw [← hfr]
        simp [hineligible r hr]
      show ((db.rows.map (writeRow params.version stF)).filter
        eloEligible).insertionSort matchLe = []
      rw [hfil]
      rfl
    exact ⟨hsel2, runIncrementalFull_of_no_eligible eng params _ hsel2⟩

/-- C3 counterexample: after a completed incremental run over
`exampleDb5` — a store with an out-of-order arrival — and with no new
terminal matches, the next incremental selection is NOT empty: the
anomaly-flagged rows stay eligible because the incremental path never
clears needs_recompute (spec 4.4), contradicting the unconditional
idempotence guarantee. -/
theorem incremental_not_idempotent_after_anomaly :
    runIncremental swingEngine exampleParams exampleDb5 =
        .ok exampleDb5After ∧
      eligibleMatches exampleDb5After ≠ [] := by
  constructor
  · rfl
  · decide

/-- C3 witness: an anomaly-free run over `exampleDb6` leaves a store on
which the selection is empty and a second run is a no-op. -/
theorem incremental_idempotent_when_unflagged_witness :
    eligibleMatches exampleDb6After.1 = [] ∧
      runIncrementalFull swingEngine exampleParams exampleDb6After.1 =
        .ok (exampleDb6After.1, []) :=
  incremental_idempotent_when_unflagged swingEngine exampleParams exampleDb6
    exampleDb6After.1 exampleDb6After.2 (by rfl) (by decide) (by decide)

/-! ### Checkpoint facts -/

theorem getLast?_mem_list {α : Type} {l : List α} {a : α}
    (h : l.getLast? = some a) : a ∈ l := by
  obtain ⟨hne, he⟩ := List.mem_getLast?_eq_getLast (l := l) (x := a)
    (by rw [h]; rfl)
  rw [he]
  exact List.getLast_mem hne

theorem chunksOf_flatten {α : Type} (bsize : Nat) (l : List α) :
    (chunksOf bsize l).flatten = l := by
  have haux : ∀ n (l2 : List α), l2.length ≤ n →
      (chunksOf bsize l2).flatten = l2 := by
    intro n
    induction n with
    | zero =>
      intro l2 hl
      have h0 : l2 = [] := List.eq_nil_of_length_eq_zero (Nat.le_zero.mp hl)
      rw [h0, chunksOf]
      rfl
    | succ n ih =>
      intro l2 hl
      cases l2 with
      | nil =>
        rw [chunksOf]
        rfl
      | cons x xs =>
        rw [chunksOf, List.flatten_cons,
          ih (xs.drop (bsize - 1)) (by
            rw [List.length_drop]
            rw [List.length_cons] at hl
            omega),
          List.cons_append, List.take_append_drop]
  exact haux l.length l (Nat.le_refl _)

theorem ckptAdvance_eq {ck : Option (Nat × Nat)} {b : List (Nat × Nat)} :
    ckptAdvance ck b = (b.getLast?).or ck := by
  unfold ckptAdvance
  cases h : b.getLast? <;> simp [Option.or]

theorem optKeyLe_refl (a : Option (Nat × Nat)) : optKeyLe a a := by
  cases a with
  | none => trivial
  | some k => exact keyLe_refl k

theorem ckptRun_commitOk (commitOk : Nat → Bool) :
    ∀ (bs : List (List (Nat × Nat))) (i : Nat) (ck : Option (Nat × Nat)) (j : Nat),
      j < (ckptRun commitOk i ck bs).length → commitOk (i + j) = true := by
  intro bs
  induction bs with
  | nil =>
    intro i ck j hj
    exact absurd hj (by simp [ckptRun])
  | cons b bs ih =>
    intro i ck j hj
    by_cases hok : commitOk i = true
    · rw [ckptRun, if_pos hok] at hj
      cases j with
      | zero =>
        rw [Nat.add_zero]
        exact hok
      | succ j =>
        rw [List.length_cons, Nat.succ_lt_succ_iff] at hj
        have := ih (i + 1) (ckptAdvance ck b) j hj
        rw [← this]
        congr 1
        omega
    · rw [ckptRun, if_neg hok] at hj
      exact absurd hj (by simp)

theorem ckptRun_getElem (commitOk : Nat → Bool) :
    ∀ (bs : List (List (Nat × Nat))) (i : Nat) (ck : Option (Nat × Nat))
      (j : Nat), j < (ckptRun commitOk i ck bs).length →
      (ckptRun commitOk i ck bs)[j]? =
        some ((bs.take (j + 1)).foldl ckptAdvance ck) := by
  intro bs
  induction bs with
  | nil =>
    intro i ck j hj
    exact absurd hj (by simp [ckptRun])
  | cons b bs ih =>
    intro i ck j hj
    by_cases hok : commitOk i = true
    · rw [ckptRun, if_pos hok] at hj ⊢
      cases j with
      | zero => simp
      | succ j =>
        rw [List.length_cons, Nat.succ_lt_succ_iff] at hj
        rw [List.getElem?_cons_succ]
        rw [ih (i + 1) (ckptAdvance ck b) j hj]
        simp
    · rw [ckptRun, if_neg hok] at hj
      exact absurd hj (by simp)

theorem foldl_ckptAdvance (bs : List (List (Nat × Nat)))
    (ck : Option (Nat × Nat)) :
    bs.foldl ckptAdvance ck = (bs.flatten.getLast?).or ck := by
  induction bs generalizing ck with
  | nil => simp [Option.or]
  | cons b bs ih =>
    rw [List.foldl_cons, ih (ckptAdvance ck b), ckptAdvance_eq,
      List.flatten_cons, List.getLast?_append, Option.or_assoc]

theorem ckptRun_chain (commitOk : Nat → Bool) :
    ∀ (bs : List (List (Nat × Nat))) (i : Nat) (ck : Option (Nat × Nat)),
      (∀ k ∈ bs.flatten, optKeyLe ck (some k)) →
      List.Pairwise keyLe bs.flatten →
      List.Chain' optKeyLe (ck :: ckptRun commitOk i ck bs) := by
  intro bs
  induction bs with
  | nil =>
    intro i ck hbound hpair
    exact List.chain'_singleton ck
  | cons b bs ih =>
    intro i ck hbound hpair
    by_cases hok : commitOk i = true
    · rw [ckptRun, if_pos hok]
      rw [List.chain'_cons]
      have hflat : (b :: bs).flatten = b ++ bs.flatten := List.flatten_cons
      rw [hflat] at hbound hpair
      rw [List.pairwise_append] at hpair
      constructor
      · cases hlast : b.getLast? with
        | none =>
          rw [ckptAdvance_eq, hlast]
          exact optKeyLe_refl ck
        | some k =>
          rw [ckptAdvance_eq, hlast]
          exact hbound k (List.mem_append_left _ (getLast?_mem_list hlast))
      · refine ih (i + 1) (ckptAdvance ck b) ?_ hpair.2.1
        intro k hk
        cases hlast : b.getLast? with
        | none =>
          rw [ckptAdvance_eq, hlast]
          exact hbound k (List.mem_append_right _ hk)
        | some kb =>
          rw [ckptAdvance_eq, hlast]
          exact hpair.2.2 kb (getLast?_mem_list hlast) k hk
    · rw [ckptRun, if_neg hok]
      exact List.chain'_singleton ck

/-- C7: checkpoint safety — over any store, batch size and pattern of
commit outcomes, the checkpoint trace of a batched incremental run is
monotonically non-decreasing across every operation, an entry is written
only for a batch whose commit succeeded (the job aborts at the first
failure), and the i-th checkpoint equals exactly the last total-order key
of the fully committed batches 0..i (never part of an uncommitted
batch). -/
theorem checkpoint_safety {R : Type} (db : EloDb R) (bsize : Nat)
    (commitOk : Nat → Bool) :
    List.Chain' optKeyLe (none :: incrementalCkptTrace db bsize commitOk)
      ∧ (∀ j (hj : j < (incrementalCkptTrace db bsize commitOk).length),
          commitOk j = true)
      ∧ (∀ j, j < (incrementalCkptTrace db bsize commitOk).length →
          (incrementalCkptTrace db bsize commitOk)[j]? =
            some ((((chunksOf bsize ((eligibleMatches db).map keyOf)).take
              (j + 1)).flatten).getLast?)) := by
  refine ⟨?_, ?_, ?_⟩
  · refine ckptRun_chain commitOk _ 0 none (fun k _ => trivial) ?_
    rw [chunksOf_flatten]
    have hsorted : List.Pairwise (@matchLe R) (eligibleMatches db) :=
      List.sorted_insertionSort matchLe (db.rows.filter eloEligible)
    exact (List.pairwise_map).mpr hsorted
  · intro j hj
    have := ckptRun_commitOk commitOk _ 0 none j hj
    rw [Nat.zero_add] at this
    exact this
  · intro j hj
    unfold incrementalCkptTrace at hj ⊢
    rw [ckptRun_getElem commitOk _ 0 none j hj, foldl_ckptAdvance,
      Option.or_none]

/-! ### Player-state store facts -/

theorem getPlayerState_setPlayerState_same {R : Type}
    (ps : List (Nat × PlayerState R)) (p : Nat) (st : PlayerState R) :
    getPlayerState (setPlayerState ps p st) p = some st := by
  induction ps with
  | nil => simp [setPlayerState, getPlayerState]
  | cons e rest ih =>
    by_cases he : e.1 = p
    · simp [setPlayerState, he, getPlayerState]
    · simp [setPlayerState, he, getPlayerState, ih]

theorem getPlayerState_setPlayerState_other {R : Type}
    (ps : List (Nat × PlayerState R)) (p q : Nat) (st : PlayerState R)
    (h : q ≠ p) :
    getPlayerState (setPlayerState ps p st) q = getPlayerState ps q := by
  have hpq : ¬ (p = q) := fun hc => h hc.symm
  induction ps with
  | nil => simp [setPlayerState, getPlayerState, hpq]
  | cons e rest ih =>
    by_cases he : e.1 = p
    · simp [setPlayerState, he, getPlayerState, hpq]
    · simp [setPlayerState, he, getPlayerState, ih]

theorem anomalousFor_eq_false {R : Type}
    {players : List (Nat × PlayerState R)} {m : MatchRow R} {q : Nat}
    (h : ∀ pst, getPlayerState players q = some pst →
      keyLt pst.lastKey (keyOf m)) :
    anomalousFor players m q = false := by
  unfold anomalousFor
  cases hq : getPlayerState players q with
  | none => rfl
  | some pst =>
    have h2 : ¬ keyLt (keyOf m) pst.lastKey := keyLt_asymm (h pst hq)
    simp [h2]

theorem applyOne_players_of_clean {R : Type} (eng : RatingEngine R)
    (ks : R × R) (st : ProcState R) (m : MatchRow R)
    (hclean : (anomalousFor st.players m m.playerA ||
      anomalousFor st.players m m.playerB) = false) :
    (applyOne eng ks st m).players =
      setPlayerState
        (setPlayerState st.players m.playerA
          { rating := (eng.update ks.1 ks.2
              (currentRating eng st.players m.playerA)
              (currentRating eng st.players m.playerB) m.winnerIsA).1,
            lastKey := keyOf m })
        m.playerB
        { rating := (eng.update ks.1 ks.2
            (currentRating eng st.players m.playerA)
            (currentRating eng st.players m.playerB) m.winnerIsA).2,
          lastKey := keyOf m } := by
  unfold applyOne currentRating
  simp [hclean]

theorem applyOne_snap_values {R : Type} (eng : RatingEngine R) (ks : R × R)
    (st : ProcState R) (m : MatchRow R) :
    ∃ s : Snap R, (applyOne eng ks st m).snaps = st.snaps ++ [s] ∧
      s.mid = m.mid ∧ s.key = keyOf m ∧
      s.playerA = m.playerA ∧ s.playerB = m.playerB ∧
      s.preA = currentRating eng st.players m.playerA ∧
      s.preB = currentRating eng st.players m.playerB ∧
      s.postA = (eng.update ks.1 ks.2
        (currentRating eng st.players m.playerA)
        (currentRating eng st.players m.playerB) m.winnerIsA).1 ∧
      s.postB = (eng.update ks.1 ks.2
        (currentRating eng st.players m.playerA)
        (currentRating eng st.players m.playerB) m.winnerIsA).2 ∧
      s.flagged = (anomalousFor st.players m m.playerA ||
        anomalousFor st.players m m.playerB) := by
  refine ⟨_, rfl, rfl, rfl, rfl, rfl, ?_, ?_, ?_, ?_, rfl⟩ <;> rfl

theorem involves_iff {R : Type} (s : Snap R) (p : Nat) :
    Snap.involves s p = true ↔ (s.playerA = p ∨ s.playerB = p) := by
  unfold Snap.involves
  simp

theorem filter_singleton_of_involves {R : Type} {s0 : Snap R} {p : Nat}
    (h : Snap.involves s0 p = true) :
    List.filter (fun s => Snap.involves s p) [s0] = [s0] := by
  simp [List.filter, h]

theorem filter_singleton_of_not_involves {R : Type} {s0 : Snap R} {p : Nat}
    (h : Snap.involves s0 p = false) :
    List.filter (fun s => Snap.involves s p) [s0] = [] := by
  simp [List.filter, h]

theorem currentRating_of_state {R : Type} (eng : RatingEngine R)
    {players : List (Nat × PlayerState R)} {p : Nat} {pst : PlayerState R}
    (h : getPlayerState players p = some pst) :
    currentRating eng players p = pst.rating := by
  unfold currentRating
  rw [h]
  rfl

theorem playersMatchSnaps_step {R : Type} (eng : RatingEngine R) (ks : R × R)
    (st : ProcState R) (m : MatchRow R)
    (hAB : m.playerA ≠ m.playerB)
    (hclean : (anomalousFor st.players m m.playerA ||
      anomalousFor st.players m m.playerB) = false)
    (hinv : playersMatchSnaps st) :
    playersMatchSnaps (applyOne eng ks st m) := by
  obtain ⟨s0, hs0eq, hs0mid, hs0key, hs0pa, hs0pb, hs0preA, hs0preB,
    hs0postA, hs0postB, hs0flag⟩ := applyOne_snap_values eng ks st m
  have hpl := applyOne_players_of_clean eng ks st m hclean
  intro p
  rw [hpl, hs0eq]
  unfold snapsFor
  rw [List.filter_append]
  by_cases hpb : p = m.playerB
  · subst hpb
    rw [getPlayerState_setPlayerState_same]
    have hin : Snap.involves s0 m.playerB = true := by
      rw [involves_iff, hs0pb]
      exact Or.inr rfl
    rw [filter_singleton_of_involves hin, List.getLast?_concat]
    refine ⟨s0, rfl, ?_⟩
    unfold Snap.postOf
    rw [hs0pa]
    rw [if_neg hAB]
    exact hs0postB.symm
  · by_cases hpa : p = m.playerA
    · subst hpa
      rw [getPlayerState_setPlayerState_other _ _ _ _
        (fun hc => hpb hc), getPlayerState_setPlayerState_same]
      have hin : Snap.involves s0 m.playerA = true := by
        rw [involves_iff, hs0pa]
        exact Or.inl rfl
      rw [filter_singleton_of_involves hin, List.getLast?_concat]
      refine ⟨s0, rfl, ?_⟩
      unfold Snap.postOf
      rw [hs0pa]
      rw [if_pos rfl]
      exact hs0postA.symm
    · rw [getPlayerState_setPlayerState_other _ _ _ _ (fun hc => hpb hc),
        getPlayerState_setPlayerState_other _ _ _ _ (fun hc => hpa hc)]
      have hnin : Snap.involves s0 p = false := by
        cases h2 : Snap.involves s0 p
        · rfl
        · exact absurd ((involves_iff s0 p).mp h2) (by
            rw [hs0pa, hs0pb]
            rintro (hc | hc)
            · exact hpa hc.symm
            · exact hpb hc.symm)
      rw [filter_singleton_of_not_involves hnin, List.append_nil]
      exact hinv p

theorem chain_extend {R : Type} (eng : RatingEngine R) (ks : R × R)
    (st : ProcState R) (m : MatchRow R) (p : Nat)
    (hAB : m.playerA ≠ m.playerB)
    (hinv : playersMatchSnaps st)
    (hc : List.Chain' (chainLink p) (snapsFor p st.snaps)) :
    List.Chain' (chainLink p) (snapsFor p (applyOne eng ks st m).snaps) := by
  obtain ⟨s0, hs0eq, hs0mid, hs0key, hs0pa, hs0pb, hs0preA, hs0preB,
    hs0postA, hs0postB, hs0flag⟩ := applyOne_snap_values eng ks st m
  rw [hs0eq]
  unfold snapsFor at hc ⊢
  rw [List.filter_append]
  by_cases hin : Snap.involves s0 p = true
  · rw [filter_singleton_of_involves hin]
    rw [List.chain'_append]
    refine ⟨hc, List.chain'_singleton s0, ?_⟩
    intro x hx y hy
    have hy2 : y = s0 := by
      rw [List.head?_cons] at hy
      exact (Option.mem_some_iff.mp hy).symm
    cases hgp : getPlayerState st.players p with
    | none =>
      have hi := hinv p
      rw [hgp] at hi
      unfold snapsFor at hi
      rw [hi] at hx
      exact absurd hx (by simp)
    | some pst =>
      have hi := hinv p
      rw [hgp] at hi
      obtain ⟨s, hs, hrat⟩ := hi
      unfold snapsFor at hs
      rw [hs] at hx
      have hx2 : x = s := (Option.mem_some_iff.mp hx).symm
      rw [hy2, hx2]
      unfold chainLink
      have hcur : currentRating eng st.players p = pst.rating :=
        currentRating_of_state eng hgp
      have hpre : Snap.preOf s0 p = currentRating eng st.players p := by
        unfold Snap.preOf
        by_cases hpa : s0.playerA = p
        · rw [if_pos hpa, hs0preA]
          rw [hs0pa] at hpa
          rw [hpa]
        · rw [if_neg hpa, hs0preB]
          have hpbp : s0.playerB = p := by
            rcases (involves_iff s0 p).mp hin with h2 | h2
            · exact absurd h2 hpa
            · exact h2
          rw [hs0pb] at hpbp
          rw [hpbp]
      rw [hpre, hcur, hrat]
  · have hin2 : Snap.involves s0 p = false := by
      cases h2 : Snap.involves s0 p
      · rfl
      · exact absurd h2 hin
    rw [filter_singleton_of_not_involves hin2, List.append_nil]
    exact hc

theorem process_clean_master {R : Type} (eng : RatingEngine R)
    (params : ParameterSet R) :
    ∀ (ms : List (MatchRow R)) (st stF : ProcState R),
      processMatches eng params ms st = .ok stF →
      List.Pairwise (fun a b : MatchRow R => keyLt (keyOf a) (keyOf b)) ms →
      (∀ m ∈ ms, m.playerA ≠ m.playerB) →
      (∀ m ∈ ms, ∀ p pst, getPlayerState st.players p = some pst →
        keyLt pst.lastKey (keyOf m)) →
      playersMatchSnaps st →
      playersMatchSnaps stF ∧
        stF.snaps.map Snap.key = st.snaps.map Snap.key ++ ms.map keyOf ∧
        (∀ p, List.Chain' (chainLink p) (snapsFor p st.snaps) →
          List.Chain' (chainLink p) (snapsFor p stF.snaps)) := by
  intro ms
  induction ms with
  | nil =>
    intro st stF h _ _ _ hinv
    rw [processMatches_nil] at h
    injection h with h2
    subst h2
    exact ⟨hinv, by simp, fun p hc => hc⟩
  | cons m ms ih =>
    intro st stF h hpair hab hbnd hinv
    obtain ⟨ks, hks, h2⟩ := processMatches_cons_ok h
    have habm : m.playerA ≠ m.playerB := hab m (List.mem_cons_self m ms)
    have hbndm : ∀ p pst, getPlayerState st.players p = some pst →
        keyLt pst.lastKey (keyOf m) :=
      fun p pst hp => hbnd m (List.mem_cons_self m ms) p pst hp
    have hcleanA : anomalousFor st.players m m.playerA = false :=
      anomalousFor_eq_false (fun pst hp => hbndm _ pst hp)
    have hcleanB : anomalousFor st.players m m.playerB = false :=
      anomalousFor_eq_false (fun pst hp => hbndm _ pst hp)
    have hclean : (anomalousFor st.players m m.playerA ||
        anomalousFor st.players m m.playerB) = false := by
      rw [hcleanA, hcleanB]
      rfl
    have hpl := applyOne_players_of_clean eng ks st m hclean
    have hinv2 : playersMatchSnaps (applyOne eng ks st m) :=
      playersMatchSnaps_step eng ks st m habm hclean hinv
    have hpairtail := (List.pairwise_cons.mp hpair).2
    have hpairhead := (List.pairwise_cons.mp hpair).1
    have hbnd2 : ∀ m2 ∈ ms, ∀ p pst,
        getPlayerState (applyOne eng ks st m).players p = some pst →
        keyLt pst.lastKey (keyOf m2) := by
      intro m2 hm2 p pst hp
      rw [hpl] at hp
      by_cases hpb : p = m.playerB
      · subst hpb
        rw [getPlayerState_setPlayerState_same] at hp
        injection hp with hp2
        rw [← hp2]
        exact hpairhead m2 hm2
      · rw [getPlayerState_setPlayerState_other _ _ _ _ hpb] at hp
        by_cases hpa : p = m.playerA
        · subst hpa
          rw [getPlayerState_setPlayerState_same] at hp
          injection hp with hp2
          rw [← hp2]
          exact hpairhead m2 hm2
        · rw [getPlayerState_setPlayerState_other _ _ _ _ hpa] at hp
          exact hbnd m2 (List.mem_cons_of_mem m hm2) p pst hp
    obtain ⟨hinvF, hkeysF, hchainF⟩ := ih (applyOne eng ks st m) stF h2
      hpairtail (fun m2 hm2 => hab m2 (List.mem_cons_of_mem m hm2))
      hbnd2 hinv2
    refine ⟨hinvF, ?_, ?_⟩
    · rw [hkeysF]
      obtain ⟨s0, hs0eq, hs0mid, hs0key, hrest⟩ := applyOne_snaps eng ks st m
      rw [hs0eq, List.map_append]
      simp [hs0key, List.append_assoc]
    · intro p hc
      exact hchainF p (chain_extend eng ks st m p habm hinv hc)

theorem sortMatches_pairwise_keyLt {R : Type} {l : List (MatchRow R)}
    (h : (l.map (fun m => m.mid)).Nodup) :
    List.Pairwise (fun a b : MatchRow R => keyLt (keyOf a) (keyOf b))
      (sortMatches l) := by
  have hsorted : List.Pairwise (@matchLe R) (sortMatches l) :=
    List.sorted_insertionSort matchLe l
  have hnodup : ((sortMatches l).map (fun m => m.mid)).Nodup := by
    have hperm : List.Perm (sortMatches l) l := List.perm_insertionSort matchLe l
    exact ((hperm.map (fun m => m.mid)).nodup_iff).mpr h
  have hmids : List.Pairwise (fun a b : MatchRow R => a.mid ≠ b.mid)
      (sortMatches l) := (List.pairwise_map).mp hnodup
  refine (hsorted.and hmids).imp ?_
  intro a b hab
  refine keyLt_of_keyLe_of_ne hab.1 ?_
  intro he
  exact hab.2 (congrArg Prod.snd he)

/-- C4 (amended): within a rebuild job (distinct match identifiers,
distinct participants per match), snapshots are produced in strictly
ascending (temporal_order, id) order — so of two matches sharing a
participant the one with the smaller key is applied first — and for two
CONSECUTIVE matches of a player (no match of that player strictly between
them) the later snapshot's pre-rating for that player equals the earlier
snapshot's post-rating for that player. -/
theorem rebuild_order_and_chaining {R : Type} (eng : RatingEngine R)
    (params : ParameterSet R) (db db2 : EloDb R) (snaps : List (Snap R))
    (hok : runRebuildFull eng params db = .ok (db2, snaps))
    (hids : (db.rows.map (fun m => m.mid)).Nodup)
    (hab : ∀ m ∈ db.rows, m.playerA ≠ m.playerB) :
    List.Pairwise (fun a b : Snap R => keyLt a.key b.key) snaps ∧
      ∀ p, List.Chain' (chainLink p) (snapsFor p snaps) := by
  unfold runRebuildFull at hok
  dsimp only at hok
  cases hp : processMatches eng params
      (sortMatches ((resetDb db).rows.filter isTerminal))
      { players := [], snaps := [], marks := [] } with
  | error e =>
    rw [hp] at hok
    simp [Except.map] at hok
  | ok stF =>
    rw [hp] at hok
    simp only [Except.map] at hok
    injection hok with hok2
    rw [Prod.mk.injEq] at hok2
    obtain ⟨hdb2, hsnaps⟩ := hok2
    have hresetmids : ((resetDb db).rows.map (fun m => m.mid)).Nodup := by
      unfold resetDb
      show ((db.rows.map clearRow).map (fun m => m.mid)).Nodup
      rw [List.map_map]
      exact hids
    have hfiltermids :
        (((resetDb db).rows.filter isTerminal).map (fun m => m.mid)).Nodup :=
      List.Nodup.sublist (List.Sublist.map _ (List.filter_sublist _)) hresetmids
    have hpair := sortMatches_pairwise_keyLt hfiltermids
    have habsel : ∀ m2 ∈ sortMatches ((resetDb db).rows.filter isTerminal),
        m2.playerA ≠ m2.playerB := by
      intro m2 hm2
      unfold sortMatches at hm2
      rw [List.mem_insertionSort] at hm2
      have hm3 := (List.mem_filter.mp hm2).1
      unfold resetDb at hm3
      obtain ⟨r, hr, hrc⟩ := List.mem_map.mp hm3
      have := hab r hr
      rw [← hrc]
      exact this
    have hinv0 : playersMatchSnaps
        ({ players := [], snaps := [], marks := [] } : ProcState R) :=
      fun p => rfl
    have hbnd0 : ∀ m2 ∈ sortMatches ((resetDb db).rows.filter isTerminal),
        ∀ p pst,
        getPlayerState
          ({ players := [], snaps := [], marks := [] } : ProcState R).players
          p = some pst → keyLt pst.lastKey (keyOf m2) :=
      fun m2 _ p pst hp2 => Option.noConfusion hp2
    obtain ⟨hinvF, hkeysF, hchainF⟩ := process_clean_master eng params
      (sortMatches ((resetDb db).rows.filter isTerminal))
      { players := [], snaps := [], marks := [] } stF hp hpair habsel
      hbnd0 hinv0
    dsimp only [List.map_nil, List.nil_append] at hkeysF
    subst hsnaps
    constructor
    · rw [← List.pairwise_map (f := Snap.key) (R := keyLt), hkeysF]
      exact (List.pairwise_map).mpr hpair
    · intro p
      refine hchainF p ?_
      show List.Chain' (chainLink p) (snapsFor p [])
      exact List.chain'_nil

/-- C4 witness: the ordering and chaining facts on a concrete rebuild of
three matches between the same two players. -/
theorem rebuild_order_and_chaining_witness :
    List.Pairwise (fun a b : Snap Int => keyLt a.key b.key) exampleDb4Res.2 ∧
      ∀ p, List.Chain' (chainLink p) (snapsFor p exampleDb4Res.2) :=
  rebuild_order_and_chaining swingEngine exampleParams exampleDb4
    exampleDb4Res.1 exampleDb4Res.2 (by rfl) (by decide) (by decide)

/-- C4 counterexample to the claim as stated for ANY two matches sharing
a participant: in the rebuild of `exampleDb4`, the first and the third
snapshot both involve player 1 and are applied in key order, but the
later match's pre-rating for player 1 (1564) differs from the earlier
match's post-rating (1532), because the middle match moved the rating in
between. -/
theorem rebuild_nonadjacent_pre_post_differ :
    exampleDb4Res.2.map Snap.key = [(1, 1), (2, 2), (3, 3)] ∧
      (exampleDb4Res.2.head?).map (fun s => Snap.involves s 1) = some true ∧
      (exampleDb4Res.2.getLast?).map (fun s => Snap.involves s 1) = some true ∧
      (exampleDb4Res.2.head?).map (fun s => Snap.postOf s 1) = some 1532 ∧
      (exampleDb4Res.2.getLast?).map (fun s => Snap.preOf s 1) = some 1564 ∧
      (1564 : Int) ≠ 1532 := by decide
